import Mathlib

/-
  Verification of the Fundit chain-indexing and reconciliation engine.

  Shallow embedding of the core services:
  - the block-range scheduler (worker.js, processNetworks),
  - the event indexer with block-range chunking (src/services/blockchain.js),
  - the reconciliation engine (src/services/reconciliation.js),
  - the autonomous donation relay (src/services/directDonationMonitor.js).

  Block numbers handled by the scheduler are JS numbers used integrally and
  are modelled as integers; on-chain token amounts are fixed-point integers
  rendered with 8 decimals (ethers.formatUnits) and are modelled as rationals;
  wei balances are BigInt and are modelled as naturals.
-/

namespace Fundit

/-- ethers.formatUnits with STABLE_TOKEN_DECIMALS = 8: the raw on-chain
integer amount rendered as a decimal number. -/
def fmtUnits (raw : ℕ) : ℚ := (raw : ℚ) / 100000000

namespace Scheduler

/-- CATCHUP_BATCH_SIZE from worker.js. -/
def CATCHUP_BATCH_SIZE : ℤ := 5000

/-- REALTIME_BATCH_SIZE from worker.js. -/
def REALTIME_BATCH_SIZE : ℤ := 100

/-- RECENT_HISTORY_BLOCKS from worker.js. -/
def RECENT_HISTORY_BLOCKS : ℤ := 100000

/-- MAX_ACCEPTABLE_GAP from worker.js. -/
def MAX_ACCEPTABLE_GAP : ℤ := 500000

/-- REALTIME_THRESHOLD from worker.js. -/
def REALTIME_THRESHOLD : ℤ := 200

/-- Result of one scheduler run for one chain that already has a cursor
(the lastIndexedBlocks[network] !== undefined branch of processNetworks).
jumpCursor records the immediate cursor reset performed by the jump-ahead
path; range is the inclusive block range handed to indexNetwork, if any;
finalCursor is the persisted last_indexed_block after the run (ranges
produced by the scheduler are at most 5000 blocks, so indexNetwork takes its
direct, unchunked path and persists exactly the range's end block). -/
structure RunResult where
  jumped : Bool
  jumpCursor : Option ℤ
  range : Option (ℤ × ℤ)
  batchSize : Option ℤ
  finalCursor : ℤ
deriving Repr, DecidableEq

/-- Batch size chosen from the gap: realtimeMode (gap at most 200) selects
100, otherwise 5000. -/
def schedBatch (head c : ℤ) : ℤ :=
  if head - c ≤ REALTIME_THRESHOLD then REALTIME_BATCH_SIZE else CATCHUP_BATCH_SIZE

/-- The jump-ahead resumption block Math.max(1, currentBlock - RECENT_HISTORY_BLOCKS). -/
def jumpFrom (head : ℤ) : ℤ := max 1 (head - RECENT_HISTORY_BLOCKS)

/-- toBlock = fromBlock + blocksToProcess - 1 with
blocksToProcess = Math.min(currentBlock - fromBlock + 1, batchSize). -/
def toBlockOf (head fromB batch : ℤ) : ℤ := fromB + min (head - fromB + 1) batch - 1

/-- One scheduler run for a chain with current head and existing cursor c,
mirroring the per-network body of processNetworks in worker.js:
compute gap = head - c; if gap exceeds MAX_ACCEPTABLE_GAP, reset the cursor
to jumpFrom head - 1 in the database and index from jumpFrom head; otherwise
index from c + 1; skip when fromBlock is beyond head; the chosen batch size
caps the range at toBlockOf. -/
def runStep (head c : ℤ) : RunResult :=
  if head - c > MAX_ACCEPTABLE_GAP then
    if jumpFrom head > head then
      { jumped := true, jumpCursor := some (jumpFrom head - 1), range := none,
        batchSize := none, finalCursor := jumpFrom head - 1 }
    else
      { jumped := true, jumpCursor := some (jumpFrom head - 1),
        range := some (jumpFrom head, toBlockOf head (jumpFrom head) (schedBatch head c)),
        batchSize := some (schedBatch head c),
        finalCursor := toBlockOf head (jumpFrom head) (schedBatch head c) }
  else
    if c + 1 > head then
      { jumped := false, jumpCursor := none, range := none, batchSize := none,
        finalCursor := c }
    else
      { jumped := false, jumpCursor := none,
        range := some (c + 1, toBlockOf head (c + 1) (schedBatch head c)),
        batchSize := some (schedBatch head c),
        finalCursor := toBlockOf head (c + 1) (schedBatch head c) }

end Scheduler

namespace Indexer

/-- MAX_BLOCK_RANGE from src/services/blockchain.js. -/
def MAX_BLOCK_RANGE : ℕ := 10000

/-- The chunk-building loop of indexNetwork:
for (let i = fromBlock; i < toBlock; i += MAX_BLOCK_RANGE)
  chunks.push([i, Math.min(i + MAX_BLOCK_RANGE - 1, toBlock)]).
The fuel argument bounds the iteration count; mkChunks supplies enough. -/
def mkChunksAux : ℕ → ℕ → ℕ → List (ℕ × ℕ)
  | 0, _, _ => []
  | fuel + 1, i, toB =>
    if i < toB then
      (i, min (i + MAX_BLOCK_RANGE - 1) toB) :: mkChunksAux fuel (i + MAX_BLOCK_RANGE) toB
    else []

/-- The chunk list built by indexNetwork for the span fromB..toB. -/
def mkChunks (fromB toB : ℕ) : List (ℕ × ℕ) := mkChunksAux (toB - fromB) fromB toB

/-- The loop variable lastProcessedBlock: initialised to fromBlock, then
overwritten with each processed chunk's end block. -/
def lastProcessed (cs : List (ℕ × ℕ)) (acc : ℕ) : ℕ := cs.foldl (fun _ c => c.2) acc

/-- indexNetwork's control decision for a span: when toBlock - fromBlock
exceeds MAX_BLOCK_RANGE the span is processed as the mkChunks list and the
single indexer_state write performed after the loop persists
lastProcessedBlock; otherwise the span is processed directly as one chunk
and toBlock is persisted. Returns (chunks processed in order, the one
persisted cursor value). -/
def indexNetworkPlan (fromB toB : ℕ) : List (ℕ × ℕ) × ℕ :=
  if toB - fromB > MAX_BLOCK_RANGE then
    (mkChunks fromB toB, lastProcessed (mkChunks fromB toB) fromB)
  else ([(fromB, toB)], toB)

/-- A block x is covered by some chunk of the list. -/
def covers (cs : List (ℕ × ℕ)) (x : ℕ) : Bool :=
  cs.any (fun c => c.1 ≤ x && x ≤ c.2)

end Indexer

namespace CampaignIndex

/-- Campaign struct read back from the chain via contract.campaigns(id)
(the batched pre-fetch of indexCampaignEvents); raw amounts are 8-decimal
fixed-point integers. -/
structure ChainCampaign where
  name : String
  description : String
  target : ℕ
  socialLink : String
  imageId : ℕ
  creator : String
  ended : Bool
  totalStable : ℕ
deriving Repr, DecidableEq

/-- A row of the campaigns table, with the columns written by
indexCampaignEvents (id is the key of the table map; the bookkeeping
updated_at timestamp is not part of the mirrored campaign state listed in
the data model and is omitted). -/
structure CampaignRow where
  name : String
  description : String
  targetAmount : ℚ
  socialLink : String
  imageId : ℕ
  creator : String
  ended : Bool
  amountRaised : ℚ
  chain : String
  txHash : String
deriving Repr, DecidableEq

/-- The campaigns table as a map from campaign id to its row. -/
abbrev DB : Type := ℕ → Option CampaignRow

/-- CampaignCreated event payload. -/
structure CreatedEvent where
  campaignId : ℕ
  creator : String
  txHash : String
deriving Repr, DecidableEq

/-- CampaignEdited event payload. -/
structure EditedEvent where
  campaignId : ℕ
  txHash : String
deriving Repr, DecidableEq

/-- CampaignEnded event payload. -/
structure EndedEvent where
  campaignId : ℕ
  finalStableValue : ℕ
  txHash : String
deriving Repr, DecidableEq

/-- The row inserted for a created event, built from the pre-fetched chain
struct (createdValues in indexCampaignEvents). -/
def rowOfChain (network : String) (txHash : String) (cd : ChainCampaign) : CampaignRow :=
  { name := cd.name, description := cd.description,
    targetAmount := fmtUnits cd.target, socialLink := cd.socialLink,
    imageId := cd.imageId, creator := cd.creator, ended := cd.ended,
    amountRaised := fmtUnits cd.totalStable, chain := network, txHash := txHash }

/-- INSERT INTO campaigns ... ON CONFLICT (id) DO NOTHING for one created
event; events whose chain struct is missing from the pre-fetch map are
skipped with a warning. -/
def insertCreated (chainData : ℕ → Option ChainCampaign) (network : String)
    (e : CreatedEvent) (db : DB) : DB := fun j =>
  match chainData e.campaignId with
  | none => db j
  | some cd =>
      if j = e.campaignId then
        match db e.campaignId with
        | some r => some r
        | none => some (rowOfChain network e.txHash cd)
      else db j

/-- Field rewrite performed by the UPDATE for an edited event: name,
description, target_amount, social_link and image_id from the chain struct. -/
def editRow (cd : ChainCampaign) (r : CampaignRow) : CampaignRow :=
  { r with
    name := cd.name, description := cd.description,
    targetAmount := fmtUnits cd.target, socialLink := cd.socialLink,
    imageId := cd.imageId }

/-- UPDATE campaigns ... WHERE id for one edited event; absent rows and
events with no pre-fetched chain struct are untouched. -/
def applyEdited (chainData : ℕ → Option ChainCampaign) (e : EditedEvent) (db : DB) : DB := fun j =>
  match chainData e.campaignId with
  | none => db j
  | some cd =>
      if j = e.campaignId then (db e.campaignId).map (editRow cd) else db j

/-- Field rewrite performed by the UPDATE for an ended event: ended := TRUE
and amount_raised := the event's final stable value. -/
def endRow (finalAmount : ℚ) (r : CampaignRow) : CampaignRow :=
  { r with ended := true, amountRaised := finalAmount }

/-- UPDATE campaigns SET ended = TRUE, amount_raised = finalAmount WHERE id
for one ended event. -/
def applyEnded (e : EndedEvent) (db : DB) : DB :=
  fun j =>
    if j = e.campaignId then (db e.campaignId).map (endRow (fmtUnits e.finalStableValue))
    else db j

/-- All created events of the range, processed in order. -/
def createdPhase (chainData : ℕ → Option ChainCampaign) (network : String)
    (evs : List CreatedEvent) (db : DB) : DB :=
  evs.foldl (fun d e => insertCreated chainData network e d) db

/-- All edited events of the range, processed in order. -/
def editedPhase (chainData : ℕ → Option ChainCampaign)
    (evs : List EditedEvent) (db : DB) : DB :=
  evs.foldl (fun d e => applyEdited chainData e d) db

/-- All ended events of the range, processed in order. -/
def endedPhase (evs : List EndedEvent) (db : DB) : DB :=
  evs.foldl (fun d e => applyEnded e d) db

/-- indexCampaignEvents on one block range: created inserts, then edited
updates, then ended updates, all against the same pre-fetched chain data
(the campaigns-table effect; the append-only transactions audit rows are
outside the campaign lifecycle state). -/
def indexCampaignEvents (chainData : ℕ → Option ChainCampaign) (network : String)
    (created : List CreatedEvent) (edited : List EditedEvent)
    (ended : List EndedEvent) (db : DB) : DB :=
  endedPhase ended (editedPhase chainData edited (createdPhase chainData network created db))

/-- Whether the edited-event list touches campaign j (analysis helper). -/
def hasEdit (evs : List EditedEvent) (j : ℕ) : Bool :=
  evs.any (fun e => e.campaignId = j)

/-- The final amount written at campaign j by a sequence of ended events:
the last ended event for j wins (analysis helper). -/
def lastEndAmount : List EndedEvent → ℕ → Option ℚ
  | [], _ => none
  | e :: rest, j =>
    match lastEndAmount rest j with
    | some a => some a
    | none => if e.campaignId = j then some (fmtUnits e.finalStableValue) else none

end CampaignIndex

namespace DonationIndex

/-- DonationMade event payload; netUSDValue is the raw 8-decimal integer. -/
structure DonationEvent where
  campaignId : ℕ
  donor : String
  netUSDValue : ℕ
  txHash : String
deriving Repr, DecidableEq

/-- A row of the donations table as inserted by indexDonationEvents. -/
structure DonationRow where
  campaignId : ℕ
  donor : String
  amount : ℚ
  chain : String
  txHash : String
deriving Repr, DecidableEq

/-- A row of the append-only transactions audit table. -/
structure TxRow where
  txType : String
  userAddress : String
  campaignId : ℕ
  amount : ℚ
  chain : String
  txHash : String
deriving Repr, DecidableEq

/-- The state touched by donation indexing: the campaigns table (for the
incremental amount_raised updates), the donations table and the
transactions audit table. -/
structure DonationState where
  campaigns : ℕ → Option CampaignIndex.CampaignRow
  donations : List DonationRow
  transactions : List TxRow

/-- The donations-table row for one DonationMade event (donationValues). -/
def donationRowOf (network : String) (e : DonationEvent) : DonationRow :=
  ⟨e.campaignId, e.donor, fmtUnits e.netUSDValue, network, e.txHash⟩

/-- The transactions audit row for one DonationMade event. -/
def donationTxRowOf (network : String) (e : DonationEvent) : TxRow :=
  ⟨"Donation", e.donor, e.campaignId, fmtUnits e.netUSDValue, network, e.txHash⟩

/-- UPDATE campaigns SET amount_raised = amount_raised + x WHERE id: the
incremental per-event campaign update of indexDonationEvents. -/
def bumpAmount (m : ℕ → Option CampaignIndex.CampaignRow) (id : ℕ) (x : ℚ) :
    ℕ → Option CampaignIndex.CampaignRow :=
  fun j =>
    if j = id then (m id).map (fun r => { r with amountRaised := r.amountRaised + x })
    else m j

/-- indexDonationEvents on one block range: batch-insert one donations row
per event (no conflict clause), apply one incremental amount_raised update
per event, and batch-insert one transactions audit row per event. -/
def indexDonationEvents (network : String) (evs : List DonationEvent)
    (st : DonationState) : DonationState :=
  { campaigns :=
      evs.foldl (fun m e => bumpAmount m e.campaignId (fmtUnits e.netUSDValue)) st.campaigns,
    donations := st.donations ++ evs.map (donationRowOf network),
    transactions := st.transactions ++ evs.map (donationTxRowOf network) }

end DonationIndex

namespace Reconciliation

/-- RECONCILIATION_THRESHOLD from src/services/reconciliation.js. -/
def RECONCILIATION_THRESHOLD : ℚ := 1 / 100

/-- The campaign columns read by reconcileCampaigns. -/
structure DbCampaign where
  id : ℕ
  name : String
  amountRaised : ℚ
  ended : Bool
  lastReconciled : Option ℕ
deriving Repr, DecidableEq

/-- The canonical on-chain view read via contract.campaigns(id). -/
structure ChainCampaign where
  totalStable : ℕ
  ended : Bool
deriving Repr, DecidableEq

/-- Outcome recorded per campaign by the pass. -/
inductive ReconStatus
  | updated
  | matched
deriving Repr, DecidableEq

/-- A reconciliation_log row. -/
structure LogRow where
  campaignId : ℕ
  previousValue : ℚ
  newValue : ℚ
  discrepancy : ℚ
  reconciledAt : ℕ
deriving Repr, DecidableEq

/-- One campaign of the reconciliation pass: compare the formatted chain
total against the mirrored amount; above the threshold, overwrite
amount_raised and ended with canonical values, stamp last_reconciled, and
emit one reconciliation_log row; otherwise leave the row untouched and
count a match. -/
def reconcileOne (now : ℕ) (chain : ChainCampaign) (c : DbCampaign) :
    DbCampaign × Option LogRow × ReconStatus :=
  if |fmtUnits chain.totalStable - c.amountRaised| > RECONCILIATION_THRESHOLD then
    ({ c with
        amountRaised := fmtUnits chain.totalStable, ended := chain.ended,
        lastReconciled := some now },
      some ⟨c.id, c.amountRaised, fmtUnits chain.totalStable,
        |fmtUnits chain.totalStable - c.amountRaised|, now⟩,
      ReconStatus.updated)
  else (c, none, ReconStatus.matched)

/-- The whole pass over the mirrored campaigns paired with their canonical
chain views: per-campaign results in order, the appended log rows, and the
(updated, matched) counters. -/
def reconcilePass (now : ℕ) :
    List (DbCampaign × ChainCampaign) → List DbCampaign × List LogRow × ℕ × ℕ
  | [] => ([], [], 0, 0)
  | (c, ch) :: rest =>
    ((reconcileOne now ch c).1 :: (reconcilePass now rest).1,
     (reconcileOne now ch c).2.1.toList ++ (reconcilePass now rest).2.1,
     (if (reconcileOne now ch c).2.2 = ReconStatus.updated then 1 else 0)
       + (reconcilePass now rest).2.2.1,
     (if (reconcileOne now ch c).2.2 = ReconStatus.matched then 1 else 0)
       + (reconcilePass now rest).2.2.2)

end Reconciliation

namespace Relay

/-- CONFIG.MIN_DONATION_AMOUNT of directDonationMonitor.js (1.0 MATIC), in
wei; the code compares the formatted ether balance against 1.0, which is
equivalent to this wei comparison. -/
def MIN_DONATION_WEI : ℕ := 1000000000000000000

/-- ethers.parseEther of 0.1, the hard floor re-checked at the start of
sendDonationTransaction. -/
def HARD_FLOOR_WEI : ℕ := 100000000000000000

/-- ethers.parseEther of 0.05, the minimum gas reserve. -/
def MIN_RESERVE_WEI : ℕ := 50000000000000000

/-- CONFIG.MAX_PENDING_CHECKS. -/
def MAX_PENDING_CHECKS : ℕ := 15

/-- CONFIG.GAS_PRICE_BOOST (percent). -/
def GAS_PRICE_BOOST : ℕ := 120

/-- boostFactor of replaceStuckTransaction (percent). -/
def REPLACEMENT_BOOST : ℕ := 150

/-- provider.getFeeData(): maxFeePerGas and maxPriorityFeePerGas may be
null; gasPrice is modelled as present (the code would throw before any
write otherwise). -/
structure FeeData where
  maxFeePerGas : Option ℕ
  maxPriorityFeePerGas : Option ℕ
  gasPrice : ℕ
deriving Repr, DecidableEq

/-- The JS expression a || b on a nullable BigInt a: null, undefined and 0n
all fall through to b. -/
def jsOr (o : Option ℕ) (d : ℕ) : ℕ :=
  match o with
  | some v => if v = 0 then d else v
  | none => d

/-- The JS expression a || b on a plain BigInt a: 0n falls through to b. -/
def jsOrZ (v d : ℕ) : ℕ := if v = 0 then d else v

/-- (feeData.maxFeePerGas || feeData.gasPrice) * boost / 100n. -/
def boostedMaxFee (fd : FeeData) (boost : ℕ) : ℕ :=
  jsOr fd.maxFeePerGas fd.gasPrice * boost / 100

/-- (feeData.maxPriorityFeePerGas || feeData.gasPrice / 2n) * boost / 100n. -/
def boostedPrioFee (fd : FeeData) (boost : ℕ) : ℕ :=
  jsOr fd.maxPriorityFeePerGas (fd.gasPrice / 2) * boost / 100

/-- The status column of direct_donations. -/
inductive DonationStatus
  | pending
  | completed
  | failed
deriving Repr, DecidableEq

/-- A direct_donations row (wallet addresses and transaction hashes are
modelled as numbers). -/
structure DonationRowR where
  id : ℕ
  campaignId : ℕ
  walletAddress : ℕ
  amount : ℚ
  status : DonationStatus
  contractTxHash : Option ℕ
  checkCount : ℕ
  txNonce : Option ℕ
deriving Repr, DecidableEq

/-- What the chain returns during one relay step for one wallet:
the wallet's wei balance, the receipt status for the row's stored hash
(none when no receipt yet, some ok by receipt.status), the nonce recovered
via provider.getTransaction for the stored hash, current fee data, the
donate gas estimate (none models a thrown estimate or fee fetch), the
explicitly fetched signer nonce, and the hash of a successfully submitted
transaction (none models a thrown send). -/
structure ChainEnv where
  balance : ℕ
  receiptStatusOk : Option Bool
  lookupNonce : Option ℕ
  feeData : FeeData
  gasEstimate : Option ℕ
  nonce : ℕ
  sendHash : Option ℕ
deriving Repr, DecidableEq

/-- A transaction submitted by the relay: toSelf marks the zero-value
self-transfer of the replacement path. -/
structure TxRequest where
  toSelf : Bool
  value : ℕ
  nonce : ℕ
  maxFeePerGas : ℕ
  maxPriorityFeePerGas : ℕ
  gasLimit : ℕ
deriving Repr, DecidableEq

/-- The gas reserve withheld by sendDonationTransaction: 30 percent buffer
on the gas limit, cost at the boosted max fee (with the || fallback), a
further 50 percent buffer, floored at the minimum reserve. -/
def gasReserveOf (env : ChainEnv) (est : ℕ) : ℕ :=
  if est * 130 / 100 * jsOrZ (boostedMaxFee env.feeData GAS_PRICE_BOOST) env.feeData.gasPrice
      * 150 / 100 > MIN_RESERVE_WEI then
    est * 130 / 100 * jsOrZ (boostedMaxFee env.feeData GAS_PRICE_BOOST) env.feeData.gasPrice
      * 150 / 100
  else MIN_RESERVE_WEI

/-- sendDonationTransaction: return untouched below the 0.1 hard floor;
a thrown gas estimate, a non-positive donation amount after the gas
reserve, or a thrown send mark the row failed; on success store the hash
and the explicitly fetched nonce and reset check_count. -/
def sendDonationTransaction (env : ChainEnv) (row : DonationRowR) :
    DonationRowR × List TxRequest :=
  if env.balance < HARD_FLOOR_WEI then
    (row, [])
  else
    match env.gasEstimate with
    | none => ({ row with status := DonationStatus.failed }, [])
    | some est =>
      if env.balance ≤ gasReserveOf env est then
        ({ row with status := DonationStatus.failed }, [])
      else
        match env.sendHash with
        | none => ({ row with status := DonationStatus.failed }, [])
        | some h =>
          ({ row with
              contractTxHash := some h, checkCount := 0, txNonce := some env.nonce },
            [⟨false, env.balance - gasReserveOf env est, env.nonce,
              boostedMaxFee env.feeData GAS_PRICE_BOOST,
              boostedPrioFee env.feeData GAS_PRICE_BOOST,
              est * 130 / 100⟩])

/-- replaceStuckTransaction: a zero-value self-transfer at the given nonce
with fees boosted to 150 percent, gas limit 21000; on success store the
replacement hash and reset check_count; a thrown send is caught and leaves
the row unchanged. -/
def replaceStuckTransaction (env : ChainEnv) (nonce : ℕ)
    (row : DonationRowR) : DonationRowR × List TxRequest :=
  match env.sendHash with
  | none => (row, [])
  | some h =>
      ({ row with contractTxHash := some h, checkCount := 0 },
        [⟨true, 0, nonce,
          boostedMaxFee env.feeData REPLACEMENT_BOOST,
          boostedPrioFee env.feeData REPLACEMENT_BOOST,
          21000⟩])

/-- handlePendingDonation: with no stored hash, submit; with a receipt,
finish the row by receipt status; otherwise increment check_count and,
when it reaches MAX_PENDING_CHECKS, replace the stuck transaction at the
nonce recovered from the pending transaction (the SELECT feeding this
handler does not fetch tx_nonce, so the stored-nonce branch of the source
never fires and the nonce always comes from provider.getTransaction). -/
def handlePendingDonation (env : ChainEnv) (row : DonationRowR) :
    DonationRowR × List TxRequest :=
  match row.contractTxHash with
  | none => sendDonationTransaction env row
  | some _ =>
    match env.receiptStatusOk with
    | some ok =>
        ({ row with
            status := if ok then DonationStatus.completed else DonationStatus.failed }, [])
    | none =>
        if row.checkCount + 1 ≥ MAX_PENDING_CHECKS then
          match env.lookupNonce with
          | some n =>
              replaceStuckTransaction env n { row with checkCount := row.checkCount + 1 }
          | none => ({ row with checkCount := row.checkCount + 1 }, [])
        else ({ row with checkCount := row.checkCount + 1 }, [])

/-- SELECT ... WHERE wallet_address = $1 AND status = 'pending' LIMIT 1. -/
def findPending (rows : List DonationRowR) : Option DonationRowR :=
  rows.find? (fun r => decide (r.status = DonationStatus.pending))

/-- UPDATE direct_donations ... WHERE id: replace the row with that id. -/
def setRow (rows : List DonationRowR) (r : DonationRowR) : List DonationRowR :=
  rows.map (fun x => if x.id = r.id then r else x)

/-- Number of rows with status pending. -/
def pendingCount (rows : List DonationRowR) : ℕ :=
  (rows.filter (fun r => decide (r.status = DonationStatus.pending))).length

/-- The freshly inserted pending row of checkBalanceAndCreateDonation. -/
def mkPendingRow (freshId campaignId walletAddr balance : ℕ) : DonationRowR :=
  { id := freshId, campaignId := campaignId, walletAddress := walletAddr,
    amount := (balance : ℚ) / 1000000000000000000,
    status := DonationStatus.pending,
    contractTxHash := none, checkCount := 0, txNonce := none }

/-- checkBalanceAndCreateDonation: below the minimum threshold do nothing;
otherwise insert a fresh pending row and immediately submit it. -/
def checkBalanceAndCreateDonation (env : ChainEnv)
    (campaignId walletAddr freshId : ℕ) (rows : List DonationRowR) :
    List DonationRowR × List TxRequest :=
  if env.balance < MIN_DONATION_WEI then (rows, [])
  else
    (setRow (rows ++ [mkPendingRow freshId campaignId walletAddr env.balance])
        (sendDonationTransaction env
          (mkPendingRow freshId campaignId walletAddr env.balance)).1,
      (sendDonationTransaction env
        (mkPendingRow freshId campaignId walletAddr env.balance)).2)

/-- processWallet for one wallet's rows: resolve an existing pending row
first; only when none exists, check the balance and possibly create one. -/
def processWallet (env : ChainEnv) (campaignId walletAddr freshId : ℕ)
    (rows : List DonationRowR) : List DonationRowR × List TxRequest :=
  match findPending rows with
  | some row =>
      (setRow rows (handlePendingDonation env row).1,
        (handlePendingDonation env row).2)
  | none => checkBalanceAndCreateDonation env campaignId walletAddr freshId rows

/-- Iterated polls of one pending row under a fixed chain environment,
counting the transactions issued (analysis helper for the stuck-replacement
timing). -/
def pollIter (env : ChainEnv) (r : DonationRowR) : ℕ → DonationRowR × ℕ
  | 0 => (r, 0)
  | k + 1 =>
    match pollIter env r k with
    | (r1, cnt) =>
      match handlePendingDonation env r1 with
      | (r2, txs) => (r2, cnt + txs.length)

end Relay

end Fundit

open Fundit Fundit.Scheduler Fundit.Indexer Fundit.CampaignIndex

/-- C3: on a scheduler run whose gap head - c exceeds 500000, the cursor is
reset to max 1 (head - 100000) - 1 and indexing resumes at
max 1 (head - 100000). -/
theorem scheduler_jump_ahead (head c : ℤ) (h0 : 0 ≤ c)
    (hgap : head - c > 500000) :
    (runStep head c).jumpCursor = some (max 1 (head - 100000) - 1) ∧
    ∃ toB, (runStep head c).range = some (max 1 (head - 100000), toB) := by
  have hj : jumpFrom head = max 1 (head - 100000) := rfl
  have hgap' : head - c > MAX_ACCEPTABLE_GAP := by unfold MAX_ACCEPTABLE_GAP; omega
  have hle : ¬ (jumpFrom head > head) := by rw [hj]; omega
  rw [runStep, if_pos hgap', if_neg hle]
  exact ⟨by simp [hj], ⟨toBlockOf head (jumpFrom head) (schedBatch head c), by simp [hj]⟩⟩

/-- C3 witness: scenario B of the spec, head 1000000 and cursor 100. -/
theorem scheduler_jump_ahead_witness :
    (runStep 1000000 100).jumpCursor = some 899999 ∧
    ∃ toB, (runStep 1000000 100).range = some (900000, toB) := by
  have h := scheduler_jump_ahead 1000000 100 (by norm_num) (by norm_num)
  constructor
  · rw [h.1]; norm_num
  · obtain ⟨t, ht⟩ := h.2
    exact ⟨t, by rw [ht]; norm_num⟩

/-- C5: one scheduler run never decreases the persisted cursor (the
intermediate jump-ahead write included), and the jump-ahead path executes
only when the gap exceeds 500000 blocks; hence across sequential runs the
cursor is non-decreasing. -/
theorem scheduler_cursor_monotone (head c : ℤ) (h0 : 0 ≤ c) :
    c ≤ (runStep head c).finalCursor ∧
    ((runStep head c).jumped = true → head - c > 500000) ∧
    (∀ j, (runStep head c).jumpCursor = some j → c ≤ j) := by
  unfold runStep jumpFrom toBlockOf schedBatch
  unfold MAX_ACCEPTABLE_GAP RECENT_HISTORY_BLOCKS REALTIME_THRESHOLD
  unfold REALTIME_BATCH_SIZE CATCHUP_BATCH_SIZE
  split
  · split
    · dsimp only
      refine ⟨by omega, fun _ => by omega, fun j hj => ?_⟩
      rw [Option.some.injEq] at hj
      omega
    · dsimp only
      refine ⟨?_, fun _ => by omega, fun j hj => ?_⟩
      · split <;> omega
      · rw [Option.some.injEq] at hj
        omega
  · split
    · dsimp only
      exact ⟨by omega, fun h => by simp at h, fun j hj => by simp at hj⟩
    · dsimp only
      refine ⟨?_, fun h => by simp at h, fun j hj => by simp at hj⟩
      split <;> omega

/-- C5 witness: a realtime-gap run from cursor 950 at head 1000. -/
theorem scheduler_cursor_monotone_witness :
    (950 : ℤ) ≤ (runStep 1000 950).finalCursor ∧
    ((runStep 1000 950).jumped = true → (1000 : ℤ) - 950 > 500000) := by
  have h := scheduler_cursor_monotone 1000 950 (by norm_num)
  exact ⟨h.1, h.2.1⟩

/-- C6: with an existing cursor, new blocks available and no jump-ahead, the
batch size is 100 when the gap is at most 200 and 5000 otherwise, and the
indexed range is from c + 1 up to min head (c + batchSize). -/
theorem scheduler_batch_sizing (head c : ℤ) (_h0 : 0 ≤ c) (hlt : c < head)
    (hgap : head - c ≤ 500000) :
    (runStep head c).jumped = false ∧
    (runStep head c).batchSize =
      some (if head - c ≤ 200 then 100 else 5000) ∧
    (runStep head c).range =
      some (c + 1, min head (c + (if head - c ≤ 200 then 100 else 5000))) := by
  have hgap' : ¬ (head - c > MAX_ACCEPTABLE_GAP) := by unfold MAX_ACCEPTABLE_GAP; omega
  have hle : ¬ (c + 1 > head) := by omega
  rw [runStep, if_neg hgap', if_neg hle]
  refine ⟨rfl, ?_, ?_⟩
  · unfold schedBatch REALTIME_THRESHOLD REALTIME_BATCH_SIZE CATCHUP_BATCH_SIZE
    rfl
  · unfold toBlockOf schedBatch REALTIME_THRESHOLD REALTIME_BATCH_SIZE CATCHUP_BATCH_SIZE
    simp only [Option.some.injEq, Prod.mk.injEq, true_and]
    split <;> omega

/-- C6 witness: scenario A of the spec, head 1000 and cursor 950 give the
range 951 to 1000 with batch size 100. -/
theorem scheduler_batch_sizing_witness :
    (runStep 1000 950).batchSize = some 100 ∧
    (runStep 1000 950).range = some (951, 1000) := by
  have h := scheduler_batch_sizing 1000 950 (by norm_num) (by norm_num) (by norm_num)
  constructor
  · rw [h.2.1]; norm_num
  · rw [h.2.2]; norm_num

/-- Membership form of chunk coverage. -/
theorem covers_iff (cs : List (ℕ × ℕ)) (x : ℕ) :
    covers cs x = true ↔ ∃ c ∈ cs, c.1 ≤ x ∧ x ≤ c.2 := by
  simp [covers, List.any_eq_true, Bool.and_eq_true, decide_eq_true_eq]

/-- Every chunk built by the loop spans at least one and at most 10000 blocks. -/
theorem mkChunksAux_sizes (fuel : ℕ) :
    ∀ i toB c, c ∈ mkChunksAux fuel i toB → c.1 ≤ c.2 ∧ c.2 ≤ c.1 + 9999 := by
  induction fuel with
  | zero => intro i toB c hc; simp [mkChunksAux] at hc
  | succ f ih =>
    intro i toB c hc
    simp only [mkChunksAux] at hc
    by_cases h : i < toB
    · rw [if_pos h] at hc
      rcases List.mem_cons.mp hc with h1 | h2
      · subst h1
        simp only [Fundit.Indexer.MAX_BLOCK_RANGE]
        omega
      · exact ih _ _ _ h2
    · rw [if_neg h] at hc; simp at hc

/-- Coverage characterization of the chunk loop: starting the loop at i, the
covered blocks are exactly those from i up to toB, except that toB itself is
covered only when toB - i is not a positive multiple of 10000. -/
theorem mkChunksAux_covChar (fuel : ℕ) :
    ∀ i toB, toB - i ≤ fuel → ∀ x,
      (covers (mkChunksAux fuel i toB) x = true ↔
        (i ≤ x ∧ (x < toB ∨ (x = toB ∧ i < toB ∧ (toB - i) % 10000 ≠ 0)))) := by
  induction fuel with
  | zero =>
    intro i toB hf x
    rw [covers_iff]
    simp [mkChunksAux]
    omega
  | succ f ih =>
    intro i toB hf x
    simp only [mkChunksAux]
    by_cases h : i < toB
    · rw [if_pos h, covers_iff]
      simp only [List.mem_cons]
      constructor
      · rintro ⟨c, hc | hc, hle, hge⟩
        · subst hc
          simp only [Fundit.Indexer.MAX_BLOCK_RANGE] at hle hge
          omega
        · have hrest : covers (mkChunksAux f (i + MAX_BLOCK_RANGE) toB) x = true :=
            (covers_iff _ x).mpr ⟨c, hc, hle, hge⟩
          rw [ih (i + MAX_BLOCK_RANGE) toB
            (by simp only [Fundit.Indexer.MAX_BLOCK_RANGE]; omega) x] at hrest
          simp only [Fundit.Indexer.MAX_BLOCK_RANGE] at hrest
          omega
      · intro hx
        by_cases hx9 : i ≤ x ∧ x ≤ min (i + MAX_BLOCK_RANGE - 1) toB
        · exact ⟨(i, min (i + MAX_BLOCK_RANGE - 1) toB), Or.inl rfl, hx9.1, hx9.2⟩
        · have hrest : covers (mkChunksAux f (i + MAX_BLOCK_RANGE) toB) x = true := by
            rw [ih (i + MAX_BLOCK_RANGE) toB
              (by simp only [Fundit.Indexer.MAX_BLOCK_RANGE]; omega) x]
            simp only [Fundit.Indexer.MAX_BLOCK_RANGE] at hx9 ⊢
            omega
          obtain ⟨c, hc, h1, h2⟩ := (covers_iff _ x).mp hrest
          exact ⟨c, Or.inr hc, h1, h2⟩
    · rw [if_neg h, covers_iff]
      simp
      omega

/-- Folding the loop variable over a cons. -/
theorem lastProcessed_cons (c : ℕ × ℕ) (cs : List (ℕ × ℕ)) (acc : ℕ) :
    lastProcessed (c :: cs) acc = lastProcessed cs c.2 := rfl

/-- Final value of lastProcessedBlock: the last chunk's end block, which is
toB - 1 when toB - i is a positive multiple of 10000 and toB otherwise. -/
theorem mkChunksAux_last (fuel : ℕ) :
    ∀ i toB acc, toB - i ≤ fuel →
      lastProcessed (mkChunksAux fuel i toB) acc =
        if i < toB then (if (toB - i) % 10000 = 0 then toB - 1 else toB) else acc := by
  induction fuel with
  | zero =>
    intro i toB acc hf
    have h : ¬ i < toB := by omega
    simp [mkChunksAux, lastProcessed, h]
  | succ f ih =>
    intro i toB acc hf
    simp only [mkChunksAux]
    by_cases h : i < toB
    · rw [if_pos h, lastProcessed_cons,
        ih (i + MAX_BLOCK_RANGE) toB _ (by simp only [Fundit.Indexer.MAX_BLOCK_RANGE]; omega)]
      rw [if_pos h]
      simp only [Fundit.Indexer.MAX_BLOCK_RANGE]
      by_cases h2 : i + 10000 < toB
      · rw [if_pos h2]
        by_cases hm : (toB - (i + 10000)) % 10000 = 0
        · rw [if_pos hm, if_pos (by omega)]
        · rw [if_neg hm, if_neg (by omega)]
      · rw [if_neg h2]
        by_cases hm : (toB - i) % 10000 = 0
        · rw [if_pos hm]; omega
        · rw [if_neg hm]; omega
    · rw [if_neg h, if_neg h]
      simp [mkChunksAux, lastProcessed]

/-- Head of the chunk list built starting at i. -/
theorem mkChunksAux_head (fuel i toB : ℕ) (hf : toB - i ≤ fuel) :
    (mkChunksAux fuel i toB).head? =
      if i < toB then some (i, min (i + MAX_BLOCK_RANGE - 1) toB) else none := by
  cases fuel with
  | zero =>
    have h : ¬ i < toB := by omega
    simp [mkChunksAux, h]
  | succ f =>
    simp only [mkChunksAux]
    by_cases h : i < toB
    · rw [if_pos h, if_pos h]; rfl
    · rw [if_neg h, if_neg h]; rfl

/-- Consecutive chunks built by the loop are adjacent. -/
theorem mkChunksAux_chain (fuel : ℕ) :
    ∀ i toB, toB - i ≤ fuel →
      List.Chain' (fun p q : ℕ × ℕ => q.1 = p.2 + 1) (mkChunksAux fuel i toB) := by
  induction fuel with
  | zero => intro i toB hf; simp [mkChunksAux]
  | succ f ih =>
    intro i toB hf
    simp only [mkChunksAux]
    by_cases h : i < toB
    · rw [if_pos h]
      refine List.chain'_cons'.mpr ⟨?_, ih _ _ (by simp only [Fundit.Indexer.MAX_BLOCK_RANGE]; omega)⟩
      intro y hy
      rw [mkChunksAux_head f (i + MAX_BLOCK_RANGE) toB
        (by simp only [Fundit.Indexer.MAX_BLOCK_RANGE]; omega)] at hy
      by_cases h2 : i + MAX_BLOCK_RANGE < toB
      · rw [if_pos h2] at hy
        simp only [Option.mem_def, Option.some.injEq] at hy
        subst hy
        simp only [Fundit.Indexer.MAX_BLOCK_RANGE] at h2 ⊢
        omega
      · rw [if_neg h2] at hy
        simp at hy
    · rw [if_neg h]
      simp

/-- C7 counterexample: the claim fails as stated. A span of 10001 blocks
(1..10001) exceeds 10000 blocks but is not split at all: it is processed as
a single chunk of 10001 blocks, because the code splits only when
toBlock - fromBlock strictly exceeds 10000. And for the span 1..20001
(whose difference is an exact multiple of 10000) the chunks do not cover the
span: block 20001 lies in no chunk, so the sub-chunks fail to cover the
span in order as the claim requires. -/
theorem indexer_chunking_counterexample :
    ((10001 : ℕ) - 1 + 1 > 10000 ∧ indexNetworkPlan 1 10001 = ([(1, 10001)], 10001)) ∧
    ((20001 : ℕ) - 1 + 1 > 10000 ∧
      covers (indexNetworkPlan 1 20001).1 20001 = false) := by
  refine ⟨⟨by norm_num, ?_⟩, ⟨by norm_num, ?_⟩⟩ <;> decide

/-- C7 amended: when toBlock - fromBlock strictly exceeds 10000 (a span of
more than 10001 blocks), indexNetwork splits the span into sequential
adjacent sub-chunks of at most 10000 blocks each, the first starting at
fromBlock; the chunks cover every block from fromBlock up to toBlock except
that the final block toBlock is omitted when toBlock - fromBlock is an exact
multiple of 10000; and the cursor is persisted exactly once, after all
chunks complete, with the last chunk's end block (toBlock, or toBlock - 1 in
the multiple-of-10000 case). -/
theorem indexer_chunking_amended (fromB toB : ℕ) (h : toB - fromB > 10000) :
    (∀ c ∈ (indexNetworkPlan fromB toB).1, c.1 ≤ c.2 ∧ c.2 ≤ c.1 + 9999) ∧
    List.Chain' (fun p q : ℕ × ℕ => q.1 = p.2 + 1) (indexNetworkPlan fromB toB).1 ∧
    (indexNetworkPlan fromB toB).1.head? = some (fromB, fromB + 9999) ∧
    (∀ x, covers ((indexNetworkPlan fromB toB).1) x = true ↔
        (fromB ≤ x ∧ (x < toB ∨ (x = toB ∧ (toB - fromB) % 10000 ≠ 0)))) ∧
    (indexNetworkPlan fromB toB).2 =
      (if (toB - fromB) % 10000 = 0 then toB - 1 else toB) := by
  have hplan : indexNetworkPlan fromB toB =
      (mkChunks fromB toB, lastProcessed (mkChunks fromB toB) fromB) := by
    unfold indexNetworkPlan MAX_BLOCK_RANGE
    rw [if_pos h]
  rw [hplan]
  have hfuel : toB - fromB ≤ toB - fromB := le_refl _
  refine ⟨?_, ?_, ?_, ?_, ?_⟩
  · intro c hc
    exact mkChunksAux_sizes _ _ _ _ hc
  · exact mkChunksAux_chain _ _ _ hfuel
  · rw [show mkChunks fromB toB = mkChunksAux (toB - fromB) fromB toB from rfl,
      mkChunksAux_head _ _ _ hfuel, if_pos (by omega)]
    simp only [Fundit.Indexer.MAX_BLOCK_RANGE, Option.some.injEq, Prod.mk.injEq, true_and]
    omega
  · intro x
    rw [show mkChunks fromB toB = mkChunksAux (toB - fromB) fromB toB from rfl,
      mkChunksAux_covChar _ _ _ hfuel x]
    omega
  · rw [show mkChunks fromB toB = mkChunksAux (toB - fromB) fromB toB from rfl,
      mkChunksAux_last _ _ _ _ hfuel, if_pos (by omega)]

/-- C7 amended witness: the span 1..20001 splits into chunks covering
1..20000, and the single persisted cursor value is 20000. -/
theorem indexer_chunking_amended_witness :
    (indexNetworkPlan 1 20001).2 = 20000 ∧
    covers (indexNetworkPlan 1 20001).1 20000 = true := by
  have h := indexer_chunking_amended 1 20001 (by norm_num)
  constructor
  · rw [h.2.2.2.2]; norm_num
  · exact (h.2.2.2.1 20000).mpr ⟨by norm_num, Or.inl (by norm_num)⟩

/-- Log rows and the updated counter agree for every pass: exactly one
reconciliation_log row is appended per updated campaign. -/
theorem reconcilePass_log_count (now : ℕ) :
    ∀ items, ((Reconciliation.reconcilePass now items).2.1).length =
      (Reconciliation.reconcilePass now items).2.2.1 := by
  intro items
  induction items with
  | nil => rfl
  | cons p rest ih =>
    obtain ⟨c, ch⟩ := p
    simp only [Reconciliation.reconcilePass, List.length_append, ih]
    unfold Reconciliation.reconcileOne
    split <;> simp

/-- C2: a reconciliation pass, for each campaign whose mirrored amount
differs from the formatted canonical total by more than 0.01, overwrites
amount_raised and ended with the canonical values, stamps last_reconciled,
and emits exactly one log row carrying the previous value, new value and
discrepancy; a campaign within 0.01 is left untouched, emits no log row and
counts as matched; pass-wide the number of appended log rows equals the
number of updated campaigns. -/
theorem reconciliation_convergence (now : ℕ) (ch : Reconciliation.ChainCampaign)
    (c : Reconciliation.DbCampaign) :
    (|fmtUnits ch.totalStable - c.amountRaised| > 1 / 100 →
      Reconciliation.reconcileOne now ch c =
        ({ c with
            amountRaised := fmtUnits ch.totalStable, ended := ch.ended,
            lastReconciled := some now },
          some ⟨c.id, c.amountRaised, fmtUnits ch.totalStable,
            |fmtUnits ch.totalStable - c.amountRaised|, now⟩,
          Reconciliation.ReconStatus.updated)) ∧
    (|fmtUnits ch.totalStable - c.amountRaised| ≤ 1 / 100 →
      Reconciliation.reconcileOne now ch c = (c, none, Reconciliation.ReconStatus.matched)) ∧
    (∀ items, ((Reconciliation.reconcilePass now items).2.1).length =
      (Reconciliation.reconcilePass now items).2.2.1) := by
  refine ⟨?_, ?_, reconcilePass_log_count now⟩
  · intro h
    unfold Reconciliation.reconcileOne Reconciliation.RECONCILIATION_THRESHOLD
    rw [if_pos h]
  · intro h
    unfold Reconciliation.reconcileOne Reconciliation.RECONCILIATION_THRESHOLD
    rw [if_neg (by push_neg; exact h)]

/-- C2 witness: a campaign mirrored at 0 against a canonical total of 2.0
(raw 200000000) is healed to the canonical values with one matching log
row. -/
theorem reconciliation_convergence_witness :
    Reconciliation.reconcileOne 5 ⟨200000000, true⟩ ⟨7, "x", 0, false, none⟩ =
      (⟨7, "x", fmtUnits 200000000, true, some 5⟩,
        some ⟨7, 0, fmtUnits 200000000, |fmtUnits 200000000 - 0|, 5⟩,
        Reconciliation.ReconStatus.updated) := by
  have h := reconciliation_convergence 5 ⟨200000000, true⟩ ⟨7, "x", 0, false, none⟩
  exact h.1 (by norm_num [fmtUnits])

/-- C1: processing a DonationMade event inserts one donations row and adds
the event's net amount to the campaign's amount_raised; processing the
identical event twice appends the row twice and raises amount_raised by
twice the amount — donation indexing is not idempotent. -/
theorem donation_double_count (network : String) (e : DonationIndex.DonationEvent)
    (st : DonationIndex.DonationState) (r : CampaignIndex.CampaignRow)
    (h : st.campaigns e.campaignId = some r) :
    ((DonationIndex.indexDonationEvents network [e] st).campaigns e.campaignId =
        some { r with amountRaised := r.amountRaised + fmtUnits e.netUSDValue }) ∧
    ((DonationIndex.indexDonationEvents network [e] st).donations =
        st.donations ++ [DonationIndex.donationRowOf network e]) ∧
    ((DonationIndex.indexDonationEvents network [e]
        (DonationIndex.indexDonationEvents network [e] st)).campaigns e.campaignId =
        some { r with amountRaised := r.amountRaised + 2 * fmtUnits e.netUSDValue }) ∧
    ((DonationIndex.indexDonationEvents network [e]
        (DonationIndex.indexDonationEvents network [e] st)).donations =
        st.donations ++ [DonationIndex.donationRowOf network e,
          DonationIndex.donationRowOf network e]) := by
  unfold DonationIndex.indexDonationEvents DonationIndex.bumpAmount
  refine ⟨?_, by simp, ?_, by simp⟩
  · simp [h]
  · simp [h]
    ring_nf

/-- C1 witness: an event of net amount 1.5 (raw 150000000) against a
campaign mirrored at 0 yields amount_raised 3 after being processed twice. -/
theorem donation_double_count_witness :
    (DonationIndex.indexDonationEvents "polygon" [⟨1, "donor", 150000000, "h"⟩]
      (DonationIndex.indexDonationEvents "polygon" [⟨1, "donor", 150000000, "h"⟩]
        ⟨fun j => if j = 1 then some ⟨"n", "d", 0, "s", 0, "cr", false, 0, "polygon", "t"⟩
          else none, [], []⟩)).campaigns 1 =
      some ⟨"n", "d", 0, "s", 0, "cr", false, 3, "polygon", "t"⟩ := by
  have h := donation_double_count "polygon" ⟨1, "donor", 150000000, "h"⟩
    ⟨fun j => if j = 1 then some ⟨"n", "d", 0, "s", 0, "cr", false, 0, "polygon", "t"⟩
      else none, [], []⟩
    ⟨"n", "d", 0, "s", 0, "cr", false, 0, "polygon", "t"⟩ (by simp)
  rw [h.2.2.1]
  norm_num [fmtUnits]

/-- Upserting a created event over an already-present row is a no-op
(ON CONFLICT (id) DO NOTHING). -/
theorem insertCreated_of_isSome (chainData : ℕ → Option ChainCampaign)
    (network : String) (e : CreatedEvent) (db : DB)
    (h : (db e.campaignId).isSome) :
    insertCreated chainData network e db = db := by
  funext j
  unfold insertCreated
  cases hcd : chainData e.campaignId with
  | none => rfl
  | some cd =>
    dsimp only
    by_cases hj : j = e.campaignId
    · subst hj
      rw [if_pos rfl]
      obtain ⟨r, hr⟩ := Option.isSome_iff_exists.mp h
      rw [hr]
    · rw [if_neg hj]

/-- A created-event upsert never deletes a row. -/
theorem insertCreated_isSome_mono (chainData : ℕ → Option ChainCampaign)
    (network : String) (e : CreatedEvent) (db : DB) (j : ℕ)
    (h : (db j).isSome) :
    ((insertCreated chainData network e db) j).isSome := by
  unfold insertCreated
  cases hcd : chainData e.campaignId with
  | none => exact h
  | some cd =>
    dsimp only
    by_cases hj : j = e.campaignId
    · subst hj
      rw [if_pos rfl]
      cases db e.campaignId <;> rfl
    · rw [if_neg hj]; exact h

/-- After a created-event upsert with available chain data, the campaign's
row exists. -/
theorem insertCreated_creates (chainData : ℕ → Option ChainCampaign)
    (network : String) (e : CreatedEvent) (db : DB)
    (h : (chainData e.campaignId).isSome) :
    ((insertCreated chainData network e db) e.campaignId).isSome := by
  unfold insertCreated
  obtain ⟨cd, hcd⟩ := Option.isSome_iff_exists.mp h
  simp only [hcd]
  cases db e.campaignId <;> rfl

/-- The created phase never deletes a row. -/
theorem createdPhase_isSome_mono (chainData : ℕ → Option ChainCampaign)
    (network : String) (evs : List CreatedEvent) :
    ∀ (db : DB) (j : ℕ), (db j).isSome →
      ((createdPhase chainData network evs db) j).isSome := by
  induction evs with
  | nil => intro db j h; exact h
  | cons a rest ih =>
    intro db j h
    exact ih (insertCreated chainData network a db) j
      (insertCreated_isSome_mono chainData network a db j h)

/-- After the created phase, every created campaign with available chain
data has a row. -/
theorem createdPhase_creates (chainData : ℕ → Option ChainCampaign)
    (network : String) (evs : List CreatedEvent) :
    ∀ (db : DB) (e : CreatedEvent), e ∈ evs → (chainData e.campaignId).isSome →
      ((createdPhase chainData network evs db) e.campaignId).isSome := by
  induction evs with
  | nil => intro db e he _; exact absurd he (List.not_mem_nil e)
  | cons a rest ih =>
    intro db e he hcd
    rcases List.mem_cons.mp he with h1 | h2
    · subst h1
      exact createdPhase_isSome_mono chainData network rest _ _
        (insertCreated_creates chainData network e db hcd)
    · exact ih _ _ h2 hcd

/-- The created phase is a no-op when every created campaign with available
chain data already has a row. -/
theorem createdPhase_noop (chainData : ℕ → Option ChainCampaign)
    (network : String) (evs : List CreatedEvent) :
    ∀ (db : DB),
      (∀ e ∈ evs, (chainData e.campaignId).isSome → (db e.campaignId).isSome) →
      createdPhase chainData network evs db = db := by
  induction evs with
  | nil => intro db _; rfl
  | cons a rest ih =>
    intro db h
    have hins : insertCreated chainData network a db = db := by
      cases hcd : chainData a.campaignId with
      | none =>
        funext j
        unfold insertCreated
        simp only [hcd]
      | some cd =>
        exact insertCreated_of_isSome chainData network a db
          (h a (List.mem_cons_self a rest) (by rw [hcd]; rfl))
    calc createdPhase chainData network (a :: rest) db
        = createdPhase chainData network rest (insertCreated chainData network a db) := rfl
      _ = createdPhase chainData network rest db := by rw [hins]
      _ = db := ih db (fun e he => h e (List.mem_cons_of_mem a he))

/-- An edited-event update preserves row existence in both directions. -/
theorem applyEdited_isSome (chainData : ℕ → Option ChainCampaign)
    (e : EditedEvent) (db : DB) (j : ℕ) :
    ((applyEdited chainData e db) j).isSome = (db j).isSome := by
  unfold applyEdited
  cases hcd : chainData e.campaignId with
  | none => rfl
  | some cd =>
    dsimp only
    by_cases hj : j = e.campaignId
    · subst hj
      rw [if_pos rfl]
      cases db e.campaignId <;> rfl
    · rw [if_neg hj]

/-- The edited phase preserves row existence. -/
theorem editedPhase_isSome (chainData : ℕ → Option ChainCampaign)
    (evs : List EditedEvent) :
    ∀ (db : DB) (j : ℕ),
      ((editedPhase chainData evs db) j).isSome = (db j).isSome := by
  induction evs with
  | nil => intro db j; rfl
  | cons a rest ih =>
    intro db j
    calc ((editedPhase chainData (a :: rest) db) j).isSome
        = ((editedPhase chainData rest (applyEdited chainData a db)) j).isSome := rfl
      _ = ((applyEdited chainData a db) j).isSome := ih _ j
      _ = (db j).isSome := applyEdited_isSome chainData a db j

/-- An ended-event update preserves row existence. -/
theorem applyEnded_isSome (e : EndedEvent) (db : DB) (j : ℕ) :
    ((applyEnded e db) j).isSome = (db j).isSome := by
  unfold applyEnded
  by_cases hj : j = e.campaignId
  · subst hj
    rw [if_pos rfl]
    cases db e.campaignId <;> rfl
  · rw [if_neg hj]

/-- The ended phase preserves row existence. -/
theorem endedPhase_isSome (evs : List EndedEvent) :
    ∀ (db : DB) (j : ℕ),
      ((endedPhase evs db) j).isSome = (db j).isSome := by
  induction evs with
  | nil => intro db j; rfl
  | cons a rest ih =>
    intro db j
    calc ((endedPhase (a :: rest) db) j).isSome
        = ((endedPhase rest (applyEnded a db)) j).isSome := rfl
      _ = ((applyEnded a db) j).isSome := ih _ j
      _ = (db j).isSome := applyEnded_isSome a db j

/-- Rewriting the same edited fields twice equals rewriting them once. -/
theorem editRow_editRow (cd : ChainCampaign) (r : CampaignRow) :
    editRow cd (editRow cd r) = editRow cd r := rfl

/-- The last ended-write wins over earlier ones. -/
theorem endRow_endRow (a b : ℚ) (r : CampaignRow) :
    endRow a (endRow b r) = endRow a r := rfl

/-- Edited-field writes and ended-field writes touch disjoint columns. -/
theorem editRow_endRow_comm (cd : ChainCampaign) (a : ℚ) (r : CampaignRow) :
    editRow cd (endRow a r) = endRow a (editRow cd r) := rfl

/-- Pointwise description of the edited phase: at campaign j it rewrites
the edit columns from the pre-fetched chain struct of j when some edited
event touches j, and is the identity otherwise. -/
theorem editedPhase_char (chainData : ℕ → Option ChainCampaign)
    (evs : List EditedEvent) :
    ∀ (db : DB) (j : ℕ),
      editedPhase chainData evs db j =
        match chainData j with
        | none => db j
        | some cd => if hasEdit evs j then (db j).map (editRow cd) else db j := by
  induction evs with
  | nil =>
    intro db j
    cases chainData j <;> simp [editedPhase, hasEdit]
  | cons a rest ih =>
    intro db j
    rw [show editedPhase chainData (a :: rest) db
        = editedPhase chainData rest (applyEdited chainData a db) from rfl, ih]
    by_cases hj : a.campaignId = j
    · subst hj
      cases hcd : chainData a.campaignId with
      | none =>
        dsimp only
        unfold applyEdited
        simp only [hcd]
      | some cd =>
        dsimp only
        have hav : applyEdited chainData a db a.campaignId
            = (db a.campaignId).map (editRow cd) := by
          simp [applyEdited, hcd]
        have hHE : hasEdit (a :: rest) a.campaignId = true := by
          simp [hasEdit]
        rw [hav, hHE]
        by_cases hre : hasEdit rest a.campaignId
        · simp only [hre, if_true]
          cases db a.campaignId with
          | none => rfl
          | some r => exact congrArg some (editRow_editRow cd r)
        · simp [hre]
    · have hne : applyEdited chainData a db j = db j := by
        unfold applyEdited
        cases hcd : chainData a.campaignId with
        | none => rfl
        | some cd =>
          dsimp only
          rw [if_neg (fun hh : j = a.campaignId => hj hh.symm)]
      have hHE : hasEdit (a :: rest) j = hasEdit rest j := by
        simp [hasEdit, hj]
      simp only [hne, hHE]

/-- Pointwise description of the ended phase: at campaign j it writes
ended := true and the last ended event's final amount when some ended event
touches j, and is the identity otherwise. -/
theorem endedPhase_char (evs : List EndedEvent) :
    ∀ (db : DB) (j : ℕ),
      endedPhase evs db j =
        match lastEndAmount evs j with
        | none => db j
        | some a => (db j).map (endRow a) := by
  induction evs with
  | nil => intro db j; rfl
  | cons e rest ih =>
    intro db j
    rw [show endedPhase (e :: rest) db = endedPhase rest (applyEnded e db) from rfl, ih]
    cases hL : lastEndAmount rest j with
    | some a =>
      have hLc : lastEndAmount (e :: rest) j = some a := by
        simp only [lastEndAmount, hL]
      rw [hLc]
      dsimp only
      by_cases hj : j = e.campaignId
      · rw [hj]
        have hap : applyEnded e db e.campaignId
            = (db e.campaignId).map (endRow (fmtUnits e.finalStableValue)) := by
          unfold applyEnded
          rw [if_pos rfl]
        rw [hap]
        cases db e.campaignId with
        | none => rfl
        | some r => exact congrArg some (endRow_endRow a (fmtUnits e.finalStableValue) r)
      · have hap : applyEnded e db j = db j := by
          unfold applyEnded
          rw [if_neg hj]
        rw [hap]
    | none =>
      have hLc : lastEndAmount (e :: rest) j
          = (if e.campaignId = j then some (fmtUnits e.finalStableValue) else none) := by
        simp only [lastEndAmount, hL]
      rw [hLc]
      by_cases hj : j = e.campaignId
      · rw [if_pos hj.symm]
        dsimp only
        rw [hj]
        unfold applyEnded
        rw [if_pos rfl]
      · rw [if_neg (fun hh : e.campaignId = j => hj hh.symm)]
        dsimp only
        unfold applyEnded
        rw [if_neg hj]

/-- Replaying the ended phase on its own output changes nothing. -/
theorem endedPhase_idem (evs : List EndedEvent) (db : DB) :
    endedPhase evs (endedPhase evs db) = endedPhase evs db := by
  funext j
  rw [endedPhase_char evs (endedPhase evs db) j, endedPhase_char evs db j]
  cases hL : lastEndAmount evs j with
  | none => rfl
  | some a =>
    dsimp only
    cases db j with
    | none => rfl
    | some r => exact congrArg some (endRow_endRow a a r)

/-- Replaying the edited phase after the first pass's edited and ended
phases changes nothing: it rewrites the same chain-derived values. -/
theorem editedPhase_pipeline_noop (chainData : ℕ → Option ChainCampaign)
    (edited : List EditedEvent) (ended' : List EndedEvent) (dbx : DB) :
    editedPhase chainData edited
      (endedPhase ended' (editedPhase chainData edited dbx)) =
      endedPhase ended' (editedPhase chainData edited dbx) := by
  funext j
  rw [editedPhase_char chainData edited
    (endedPhase ended' (editedPhase chainData edited dbx)) j]
  cases hcd : chainData j with
  | none => rfl
  | some cd =>
    dsimp only
    by_cases hE : hasEdit edited j = true
    · rw [if_pos hE]
      have h2 : editedPhase chainData edited dbx j = (dbx j).map (editRow cd) := by
        rw [editedPhase_char chainData edited dbx j, hcd]
        dsimp only
        rw [if_pos hE]
      rw [endedPhase_char ended' (editedPhase chainData edited dbx) j, h2]
      cases hL : lastEndAmount ended' j with
      | none =>
        dsimp only
        cases dbx j with
        | none => rfl
        | some r => exact congrArg some (editRow_editRow cd r)
      | some a =>
        dsimp only
        cases dbx j with
        | none => rfl
        | some r =>
          show some (editRow cd (endRow a (editRow cd r))) = some (endRow a (editRow cd r))
          rw [editRow_endRow_comm, editRow_editRow]
    · rw [if_neg hE]

/-- C4: indexing the identical block range twice leaves the campaigns-table
lifecycle state identical to indexing it once: created inserts are
conflict-tolerant upserts and edited and ended updates rewrite the same
canonical values on replay (against the same pre-fetched chain data). -/
theorem campaign_reindex_idempotent (chainData : ℕ → Option ChainCampaign)
    (network : String) (created : List CreatedEvent) (edited : List EditedEvent)
    (ended' : List EndedEvent) (db : DB) :
    indexCampaignEvents chainData network created edited ended'
      (indexCampaignEvents chainData network created edited ended' db) =
      indexCampaignEvents chainData network created edited ended' db := by
  unfold indexCampaignEvents
  have h1 : createdPhase chainData network created
      (endedPhase ended' (editedPhase chainData edited
        (createdPhase chainData network created db))) =
      endedPhase ended' (editedPhase chainData edited
        (createdPhase chainData network created db)) := by
    apply createdPhase_noop
    intro e he hcd
    rw [endedPhase_isSome, editedPhase_isSome]
    exact createdPhase_creates chainData network created db e he hcd
  rw [h1, editedPhase_pipeline_noop, endedPhase_idem]

/-- Submission never changes the row's id. -/
theorem sendDonation_id (env : Relay.ChainEnv) (row : Relay.DonationRowR) :
    (Relay.sendDonationTransaction env row).1.id = row.id := by
  unfold Relay.sendDonationTransaction
  repeat' split
  all_goals rfl

/-- Replacement never changes the row's id. -/
theorem replaceStuck_id (env : Relay.ChainEnv) (n : ℕ) (row : Relay.DonationRowR) :
    (Relay.replaceStuckTransaction env n row).1.id = row.id := by
  unfold Relay.replaceStuckTransaction
  repeat' split
  all_goals rfl

/-- Pending-row handling never changes the row's id. -/
theorem handlePending_id (env : Relay.ChainEnv) (row : Relay.DonationRowR) :
    (Relay.handlePendingDonation env row).1.id = row.id := by
  unfold Relay.handlePendingDonation
  cases row.contractTxHash with
  | none => exact sendDonation_id env row
  | some h =>
    dsimp only
    cases env.receiptStatusOk with
    | some ok => rfl
    | none =>
      dsimp only
      by_cases hcc : row.checkCount + 1 ≥ Relay.MAX_PENDING_CHECKS
      · rw [if_pos hcc]
        cases env.lookupNonce with
        | some n =>
          dsimp only
          exact replaceStuck_id env n _
        | none => rfl
      · rw [if_neg hcc]

/-- An UPDATE keyed on an id absent from the table changes nothing. -/
theorem setRow_not_mem (rows : List Relay.DonationRowR) (r' : Relay.DonationRowR)
    (h : r'.id ∉ rows.map (fun x => x.id)) :
    Relay.setRow rows r' = rows := by
  induction rows with
  | nil => rfl
  | cons x rest ih =>
    rw [List.map_cons, List.mem_cons] at h
    push_neg at h
    show (if x.id = r'.id then r' else x) :: Relay.setRow rest r' = x :: rest
    rw [if_neg (fun hh => h.1 hh.symm), ih h.2]

/-- A row whose id differs from the updated one survives an UPDATE. -/
theorem mem_setRow_of_ne (rows : List Relay.DonationRowR)
    (r' x : Relay.DonationRowR) (hx : x ∈ rows) (hne : x.id ≠ r'.id) :
    x ∈ Relay.setRow rows r' := by
  unfold Relay.setRow
  exact List.mem_map.mpr ⟨x, hx, by rw [if_neg hne]⟩

/-- The pending row found by the LIMIT 1 query is a pending member. -/
theorem findPending_mem (rows : List Relay.DonationRowR) (row : Relay.DonationRowR)
    (h : Relay.findPending rows = some row) :
    row ∈ rows ∧ row.status = Relay.DonationStatus.pending := by
  refine ⟨List.mem_of_find?_eq_some h, ?_⟩
  have := List.find?_some h
  exact of_decide_eq_true this

/-- When the query finds nothing, no row is pending. -/
theorem findPending_none (rows : List Relay.DonationRowR)
    (h : Relay.findPending rows = none) :
    ∀ x ∈ rows, x.status ≠ Relay.DonationStatus.pending := by
  intro x hx
  have := List.find?_eq_none.mp h x hx
  simpa using this

/-- Pending count over a cons. -/
theorem pendingCount_cons (x : Relay.DonationRowR) (rest : List Relay.DonationRowR) :
    Relay.pendingCount (x :: rest) =
      (if x.status = Relay.DonationStatus.pending then 1 else 0) + Relay.pendingCount rest := by
  by_cases h : x.status = Relay.DonationStatus.pending
  · simp [Relay.pendingCount, List.filter_cons, h]
    omega
  · simp [Relay.pendingCount, List.filter_cons, h]

/-- No pending members means pending count zero. -/
theorem pendingCount_eq_zero (rows : List Relay.DonationRowR)
    (h : ∀ x ∈ rows, x.status ≠ Relay.DonationStatus.pending) :
    Relay.pendingCount rows = 0 := by
  unfold Relay.pendingCount
  rw [List.length_eq_zero]
  exact List.filter_eq_nil_iff.mpr (fun a ha => by simp [h a ha])

/-- With at most one pending row, any two pending members coincide. -/
theorem relay_pending_unique (rows : List Relay.DonationRowR)
    (hinv : Relay.pendingCount rows ≤ 1) (a b : Relay.DonationRowR)
    (ha : a ∈ rows) (hb : b ∈ rows)
    (hpa : a.status = Relay.DonationStatus.pending)
    (hpb : b.status = Relay.DonationStatus.pending) : a = b := by
  by_contra hne
  have ha' : a ∈ rows.filter (fun r => decide (r.status = Relay.DonationStatus.pending)) :=
    List.mem_filter.mpr ⟨ha, by simp [hpa]⟩
  have hb' : b ∈ rows.filter (fun r => decide (r.status = Relay.DonationStatus.pending)) :=
    List.mem_filter.mpr ⟨hb, by simp [hpb]⟩
  have hb2 : b ∈ (rows.filter (fun r => decide (r.status = Relay.DonationStatus.pending))).erase a :=
    (List.mem_erase_of_ne (fun hh => hne hh.symm)).mpr hb'
  have h1 := List.length_pos_of_mem hb2
  have h2 := List.length_erase_of_mem ha'
  have h3 : Relay.pendingCount rows =
      (rows.filter (fun r => decide (r.status = Relay.DonationStatus.pending))).length := rfl
  omega

/-- An UPDATE keyed on one id keeps at most one pending row when every row
with a different id is non-pending. -/
theorem relay_setRow_pending_le (r' : Relay.DonationRowR) :
    ∀ rows : List Relay.DonationRowR,
      (∀ x ∈ rows, x.id ≠ r'.id → x.status ≠ Relay.DonationStatus.pending) →
      ((rows.map fun x => x.id).Nodup) →
      Relay.pendingCount (Relay.setRow rows r') ≤ 1 := by
  intro rows
  induction rows with
  | nil => intro _ _; simp [Relay.setRow, Relay.pendingCount]
  | cons x rest ih =>
    intro hno hnodup
    rw [List.map_cons, List.nodup_cons] at hnodup
    show Relay.pendingCount ((if x.id = r'.id then r' else x) :: Relay.setRow rest r') ≤ 1
    by_cases hxe : x.id = r'.id
    · rw [if_pos hxe]
      have hrest : Relay.setRow rest r' = rest :=
        setRow_not_mem rest r' (by rw [← hxe]; exact hnodup.1)
      rw [pendingCount_cons, hrest]
      have hz : Relay.pendingCount rest = 0 := by
        apply pendingCount_eq_zero
        intro y hy
        apply hno y (List.mem_cons_of_mem x hy)
        intro hid
        exact hnodup.1 (by rw [hxe, ← hid]; exact List.mem_map_of_mem _ hy)
      rw [hz]
      split <;> omega
    · rw [if_neg hxe, pendingCount_cons]
      rw [if_neg (hno x (List.mem_cons_self x rest) hxe)]
      have := ih (fun y hy hid => hno y (List.mem_cons_of_mem x hy) hid) hnodup.2
      omega

/-- C8 counterexample: under a fixed environment that never returns a
receipt, polling a pending row with a stored hash from check_count 0 issues
no replacement during the first 14 polls, issues the replacement ON the
15th unconfirmed poll (when the incremented check_count reaches 15), and
the 16th poll — the claim's next poll after 15 — issues nothing further. -/
theorem relay_stuck_replacement_counterexample :
    (Relay.pollIter
        ⟨2000000000000000000, none, some 4, ⟨some 100, some 10, 50⟩, some 21000, 7, some 99⟩
        ⟨1, 2, 3, 1, Relay.DonationStatus.pending, some 5, 0, none⟩ 14).2 = 0 ∧
    (Relay.pollIter
        ⟨2000000000000000000, none, some 4, ⟨some 100, some 10, 50⟩, some 21000, 7, some 99⟩
        ⟨1, 2, 3, 1, Relay.DonationStatus.pending, some 5, 0, none⟩ 15).2 = 1 ∧
    (Relay.pollIter
        ⟨2000000000000000000, none, some 4, ⟨some 100, some 10, 50⟩, some 21000, 7, some 99⟩
        ⟨1, 2, 3, 1, Relay.DonationStatus.pending, some 5, 0, none⟩ 16).2 = 1 := by
  refine ⟨?_, ?_, ?_⟩ <;> decide

/-- C8 amended: a poll that finds no receipt for the stored hash increments
check_count and, when the incremented count is still below 15, does nothing
else; the poll at which the incremented count reaches 15 — the 15th
consecutive unconfirmed poll — itself issues the replacement: a zero-value
self-transfer at the nonce of the pending transaction with max fee and
priority fee boosted to 150 percent of the current network estimate, gas
limit 21000, storing the replacement hash and resetting check_count to 0. -/
theorem relay_stuck_replacement_amended (env : Relay.ChainEnv)
    (row : Relay.DonationRowR) (txh n nh : ℕ)
    (hhash : row.contractTxHash = some txh)
    (hrec : env.receiptStatusOk = none)
    (hlook : env.lookupNonce = some n)
    (hsend : env.sendHash = some nh) :
    (row.checkCount + 1 < 15 →
      Relay.handlePendingDonation env row
        = ({ row with checkCount := row.checkCount + 1 }, [])) ∧
    (15 ≤ row.checkCount + 1 →
      Relay.handlePendingDonation env row
        = ({ row with contractTxHash := some nh, checkCount := 0 },
          [⟨true, 0, n,
            Relay.boostedMaxFee env.feeData 150,
            Relay.boostedPrioFee env.feeData 150,
            21000⟩])) := by
  unfold Relay.handlePendingDonation
  rw [hhash]
  dsimp only
  rw [hrec]
  dsimp only
  constructor
  · intro hlt
    rw [if_neg (by unfold Relay.MAX_PENDING_CHECKS; omega)]
  · intro hge
    rw [if_pos (by unfold Relay.MAX_PENDING_CHECKS; omega), hlook]
    dsimp only
    unfold Relay.replaceStuckTransaction
    rw [hsend]
    dsimp only
    rfl

/-- C8 amended witness: a row at check_count 14 polled without a receipt is
replaced at nonce 4 with fees 150 and 15 (150 percent of max fee 100 and
priority fee 10) and reset to check_count 0 with the new hash stored. -/
theorem relay_stuck_replacement_amended_witness :
    Relay.handlePendingDonation
        ⟨2000000000000000000, none, some 4, ⟨some 100, some 10, 50⟩, some 21000, 7, some 99⟩
        ⟨1, 2, 3, 1, Relay.DonationStatus.pending, some 5, 14, none⟩ =
      (⟨1, 2, 3, 1, Relay.DonationStatus.pending, some 99, 0, none⟩,
        [⟨true, 0, 4, 150, 15, 21000⟩]) := by
  have h := relay_stuck_replacement_amended
    ⟨2000000000000000000, none, some 4, ⟨some 100, some 10, 50⟩, some 21000, 7, some 99⟩
    ⟨1, 2, 3, 1, Relay.DonationStatus.pending, some 5, 14, none⟩ 5 4 99 rfl rfl rfl rfl
  rw [h.2 (by norm_num)]
  decide

/-- C10 counterexample: a pending row submitted while the live balance
(0.05 MATIC) is below the 0.1 hard floor is returned untouched — still
pending, not failed — so the hard-floor re-verification failure does not
mark the row failed as the claim states. -/
theorem relay_hard_floor_counterexample :
    Relay.sendDonationTransaction
        ⟨50000000000000000, none, some 4, ⟨some 100, some 10, 50⟩, some 21000, 7, some 99⟩
        ⟨1, 2, 3, 1, Relay.DonationStatus.pending, none, 0, none⟩ =
      (⟨1, 2, 3, 1, Relay.DonationStatus.pending, none, 0, none⟩, []) ∧
    Relay.DonationStatus.pending ≠ Relay.DonationStatus.failed := by
  exact ⟨by decide, by decide⟩

/-- C10 amended: failures after the hard-floor gate — a thrown gas
estimate, a non-positive donation amount after the gas reserve, or a thrown
send — mark the row failed, and a failed row is never modified by later
wallet ticks; but a submission attempted with the live balance below the
0.1 hard floor returns with the row untouched (it stays pending and is
retried on later ticks), marking nothing failed. -/
theorem relay_submission_failure_amended (env : Relay.ChainEnv)
    (row : Relay.DonationRowR) :
    (env.balance < Relay.HARD_FLOOR_WEI →
      Relay.sendDonationTransaction env row = (row, [])) ∧
    (Relay.HARD_FLOOR_WEI ≤ env.balance → env.gasEstimate = none →
      Relay.sendDonationTransaction env row
        = ({ row with status := Relay.DonationStatus.failed }, [])) ∧
    (∀ est, Relay.HARD_FLOOR_WEI ≤ env.balance → env.gasEstimate = some est →
      env.balance ≤ Relay.gasReserveOf env est →
      Relay.sendDonationTransaction env row
        = ({ row with status := Relay.DonationStatus.failed }, [])) ∧
    (∀ est, Relay.HARD_FLOOR_WEI ≤ env.balance → env.gasEstimate = some est →
      Relay.gasReserveOf env est < env.balance → env.sendHash = none →
      Relay.sendDonationTransaction env row
        = ({ row with status := Relay.DonationStatus.failed }, [])) ∧
    (∀ campaignId walletAddr freshId rows r, r ∈ rows →
      r.status = Relay.DonationStatus.failed →
      (rows.map (fun x => x.id)).Nodup →
      freshId ∉ rows.map (fun x => x.id) →
      r ∈ (Relay.processWallet env campaignId walletAddr freshId rows).1) := by
  refine ⟨?_, ?_, ?_, ?_, ?_⟩
  · intro h
    unfold Relay.sendDonationTransaction
    rw [if_pos h]
  · intro h1 h2
    unfold Relay.sendDonationTransaction
    rw [if_neg (by omega), h2]
  · intro est h1 h2 h3
    unfold Relay.sendDonationTransaction
    rw [if_neg (by omega), h2]
    dsimp only
    rw [if_pos h3]
  · intro est h1 h2 h3 h4
    unfold Relay.sendDonationTransaction
    rw [if_neg (by omega), h2]
    dsimp only
    rw [if_neg (by omega), h4]
  · intro campaignId walletAddr freshId rows r hr hfail hnodup hfresh
    unfold Relay.processWallet
    cases hfp : Relay.findPending rows with
    | some row0 =>
      dsimp only
      obtain ⟨hmem, hpend⟩ := findPending_mem rows row0 hfp
      apply mem_setRow_of_ne _ _ _ hr
      rw [handlePending_id]
      intro hid
      have hreq : r = row0 := List.inj_on_of_nodup_map hnodup hr hmem hid
      rw [hreq, hpend] at hfail
      exact absurd hfail (by decide)
    | none =>
      dsimp only
      unfold Relay.checkBalanceAndCreateDonation
      by_cases hbal : env.balance < Relay.MIN_DONATION_WEI
      · rw [if_pos hbal]
        exact hr
      · rw [if_neg hbal]
        dsimp only
        apply mem_setRow_of_ne
        · exact List.mem_append_left _ hr
        · rw [sendDonation_id]
          intro hid
          have hid' : r.id = freshId := hid
          exact hfresh (hid' ▸ List.mem_map_of_mem _ hr)

/-- C10 amended witness: with balance 0.2 MATIC (above the hard floor) and
a thrown gas estimate, the pending row is marked failed. -/
theorem relay_submission_failure_witness :
    Relay.sendDonationTransaction
        ⟨200000000000000000, none, none, ⟨none, none, 1⟩, none, 0, none⟩
        ⟨1, 2, 3, 1, Relay.DonationStatus.pending, none, 0, none⟩ =
      (⟨1, 2, 3, 1, Relay.DonationStatus.failed, none, 0, none⟩, []) := by
  have h := relay_submission_failure_amended
    ⟨200000000000000000, none, none, ⟨none, none, 1⟩, none, 0, none⟩
    ⟨1, 2, 3, 1, Relay.DonationStatus.pending, none, 0, none⟩
  rw [h.2.1 (by decide) rfl]

/-- C9: under sequential relay processing a wallet has at most one pending
direct-donation row at any time: one tick resolves an existing pending row
before anything else (rewriting only that row), and a new pending row is
created only when no pending row exists and the wallet balance meets the
configured minimum; the at-most-one-pending invariant is preserved by every
tick. -/
theorem relay_single_pending (env : Relay.ChainEnv)
    (campaignId walletAddr freshId : ℕ) (rows : List Relay.DonationRowR)
    (hnodup : (rows.map (fun x => x.id)).Nodup)
    (hfresh : freshId ∉ rows.map (fun x => x.id))
    (hinv : Relay.pendingCount rows ≤ 1) :
    Relay.pendingCount (Relay.processWallet env campaignId walletAddr freshId rows).1 ≤ 1 ∧
    (rows.length < (Relay.processWallet env campaignId walletAddr freshId rows).1.length →
      Relay.findPending rows = none ∧ Relay.MIN_DONATION_WEI ≤ env.balance) := by
  unfold Relay.processWallet
  cases hfp : Relay.findPending rows with
  | some row =>
    dsimp only
    obtain ⟨hmem, hpend⟩ := findPending_mem rows row hfp
    constructor
    · apply relay_setRow_pending_le
      · intro x hx hne hp
        have hx_eq : x = row := relay_pending_unique rows hinv x row hx hmem hp hpend
        apply hne
        rw [hx_eq, handlePending_id]
      · exact hnodup
    · intro hlen
      exfalso
      have hsr : (Relay.setRow rows (Relay.handlePendingDonation env row).1).length
          = rows.length := by
        simp [Relay.setRow]
      omega
  | none =>
    dsimp only
    unfold Relay.checkBalanceAndCreateDonation
    by_cases hbal : env.balance < Relay.MIN_DONATION_WEI
    · rw [if_pos hbal]
      exact ⟨hinv, fun hlen => absurd hlen (by simp)⟩
    · rw [if_neg hbal]
      dsimp only
      constructor
      · apply relay_setRow_pending_le
        · intro x hx hne hp
          rcases List.mem_append.mp hx with hx1 | hx2
          · exact findPending_none rows hfp x hx1 hp
          · have hx_eq : x = Relay.mkPendingRow freshId campaignId walletAddr env.balance := by
              simpa using hx2
            apply hne
            rw [hx_eq, sendDonation_id]
        · rw [List.map_append]
          apply List.Nodup.append hnodup (by simp)
          intro a ha hb
          simp only [List.map_cons, List.map_nil, List.mem_singleton] at hb
          have hb' : a = freshId := hb
          exact hfresh (hb' ▸ ha)
      · intro _
        exact ⟨rfl, by omega⟩

/-- C9 witness: a wallet with no rows and zero balance keeps at most one
pending row after a tick. -/
theorem relay_single_pending_witness :
    Relay.pendingCount (Relay.processWallet
      ⟨0, none, none, ⟨none, none, 1⟩, none, 0, none⟩ 1 2 3 []).1 ≤ 1 := by
  have h := relay_single_pending
    ⟨0, none, none, ⟨none, none, 1⟩, none, 0, none⟩ 1 2 3 []
    (by simp) (by simp) (by simp [Relay.pendingCount])
  exact h.1
